import Mathlib

/-!
Verification of the variant-image resolver and price normalization of the
node-crawltool repository.  The definitions below are a shallow embedding of
the JavaScript source:

* `getHighResImage`, `normalizePrice`, `makeAbsoluteUrl` embed the utilities
  of `src/unnamed/part_002` (lines 1661-1679);
* `processVariants` and its helpers embed the variant-processing block of
  `crawlCollection` in `src/sitemap_crawler.js` (lines 560-693), which is
  textually duplicated in `src/unnamed/part_002` (lines 2085-2166);
* `processVariantImages` embeds the function of the same name in
  `src/unnamed/part_000` (lines 54-88).

JavaScript numbers are modelled by `JSNum` (exact rationals plus the
distinguished values NaN, null and undefined); strings by Lean `String`;
possibly-absent fields by `Option`; code that can throw a `TypeError`
returns `Except Unit`.
-/

namespace CrawlTool

/-- Model of a JavaScript numeric-or-missing value: an exact rational, NaN,
null, or undefined.  Rationals stand in for IEEE doubles; every number
appearing in the claims is exactly representable. -/
inductive JSNum where
  | num (q : ℚ)
  | nan
  | null
  | undef
deriving DecidableEq

/-- JavaScript truthiness of a `JSNum`: numbers other than 0 are truthy;
0, NaN, null and undefined are falsy. -/
def jsTruthy : JSNum → Bool
  | .num q => q != 0
  | _ => false

/-- JavaScript comparison `v > 10000` as used by the price heuristic:
true only for a number exceeding 10000 (NaN, null and undefined compare
false against 10000). -/
def jsGt10000 : JSNum → Bool
  | .num q => decide ((10000 : ℚ) < q)
  | _ => false

/-- JavaScript comparison `v > 0` as used for `inventory_quantity > 0`. -/
def jsGtZero : JSNum → Bool
  | .num q => decide ((0 : ℚ) < q)
  | _ => false

/-- JavaScript `a || b` on numeric values: `a` if truthy, else `b`. -/
def jsOr (a b : JSNum) : JSNum := if jsTruthy a then a else b

/-- JavaScript `a || null` on numeric values. -/
def jsOrNullNum (a : JSNum) : JSNum := if jsTruthy a then a else .null

/-- JavaScript `s || d` for a possibly-absent string `s` with string
default `d` (the empty string is falsy). -/
def jsStrOr (s : Option String) (d : String) : String :=
  match s with
  | some t => if t = "" then d else t
  | none => d

/-- JavaScript `s || null` for a possibly-absent string. -/
def jsStrOrNull (s : Option String) : Option String :=
  match s with
  | some t => if t = "" then none else some t
  | none => none

/-- Boolean test that `pat` is an initial segment of `l` (character lists). -/
def startsL : List Char → List Char → Bool
  | [], _ => true
  | _ :: _, [] => false
  | p :: ps, c :: cs => p == c && startsL ps cs

/-- JavaScript `s.startsWith(pre)`. -/
def strStartsWith (s pre : String) : Bool := startsL pre.data s.data

/-- Boolean test that `pat` occurs contiguously somewhere in `l`. -/
def containsAux (pat : List Char) : List Char → Bool
  | [] => pat.isEmpty
  | c :: cs => startsL pat (c :: cs) || containsAux pat cs

/-- JavaScript `s.includes(sub)`. -/
def strContains (s sub : String) : Bool := containsAux sub.data s.data

/-- The size-suffix vocabulary of the regex
`/_(pico|icon|thumb|small|compact|medium|large|grande|original)_/`. -/
def sizeTokens : List String :=
  ["pico", "icon", "thumb", "small", "compact", "medium", "large", "grande", "original"]

/-- If `l` begins with `"_" ++ t ++ "_"` for some size token `t` of `ts`,
return the remainder of `l` after that match. -/
def tokenAt (ts : List String) (l : List Char) : Option (List Char) :=
  match ts with
  | [] => none
  | t :: rest =>
    let pat := ("_" ++ t ++ "_").data
    if startsL pat l then some (l.drop pat.length) else tokenAt rest l

/-- Leftmost-match replacement underlying JavaScript
`s.replace(/_(pico|...|original)_/, '_2048x2048_')`: scan left to right,
replace the first size-suffix occurrence by `_2048x2048_`, or return `none`
when there is no occurrence. -/
def findRepl : List Char → Option (List Char)
  | [] => none
  | c :: cs =>
    match tokenAt sizeTokens (c :: cs) with
    | some rest => some ("_2048x2048_".data ++ rest)
    | none =>
      match findRepl cs with
      | some cs' => some (c :: cs')
      | none => none

/-- JavaScript `s.replace(/_(pico|...|original)_/, '_2048x2048_')` (non-global
regex: at most one replacement). -/
def replaceFirstSizeToken (s : String) : String :=
  match findRepl s.data with
  | some l => ⟨l⟩
  | none => s

/-- String `s` contains an occurrence of an underscore-delimited size-suffix
token (the condition under which the rewrite regex matches). -/
def hasSizeToken (s : String) : Bool := (findRepl s.data).isSome

/-- Embeds `getHighResImage` of `src/unnamed/part_002` (lines 1667-1673):
falsy input yields null; URLs containing the substring `cdn.shopify.com`
get their first size-suffix token rewritten to `_2048x2048_`; other URLs
pass through unchanged. -/
def getHighResImage (imageUrl : Option String) : Option String :=
  match imageUrl with
  | none => none
  | some s =>
    if s = "" then none
    else if strContains s "cdn.shopify.com" then some (replaceFirstSizeToken s)
    else some s

/-- Embeds `normalizePrice` of `src/unnamed/part_002` (lines 1676-1679):
falsy input (0, NaN, null, undefined) yields null; a number exceeding 10000
is divided by 100; any other number is returned unchanged. -/
def normalizePrice (price : JSNum) : JSNum :=
  if jsTruthy price = false then .null
  else if jsGt10000 price then
    match price with
    | .num q => .num (q / 100)
    | v => v
  else price

/-- Model of the platform builtin `new URL(url, origin).href` for the inputs
the crawler produces: a scheme-relative `//…` url takes the base's scheme, a
root-relative `/…` url is appended to the origin, and any other url is
resolved as a path below the origin.  The crawler always passes an origin
(`window.location.origin` or a shop base URL) as the base. -/
def jsNewURL (url origin : String) : String :=
  if strStartsWith url "//" then ⟨origin.data.takeWhile (fun c => c ≠ ':')⟩ ++ ":" ++ url
  else if strStartsWith url "/" then origin ++ url
  else origin ++ "/" ++ url

/-- Embeds `makeAbsoluteUrl` of `src/unnamed/part_002` (lines 1661-1664):
falsy input yields null; a url starting with `/` is resolved against the
base; any other url is returned unchanged. -/
def makeAbsoluteUrl (url : Option String) (baseUrl : String) : Option String :=
  match url with
  | none => none
  | some u =>
    if u = "" then none
    else if strStartsWith u "/" then some (jsNewURL u baseUrl)
    else some u

/-- The absolute-making step of `crawlCollection`
(`if (!imageUrl.startsWith('http')) imageUrl = new URL(imageUrl, origin).href`,
src/sitemap_crawler.js lines 573-575, 622-624, 659-661). -/
def absolutizeUrl (origin s : String) : String :=
  if strStartsWith s "http" then s else jsNewURL s origin

/-- The full per-URL normalization of `crawlCollection`: make the URL
absolute, then rewrite the first size-suffix token when the result contains
the substring `cdn.shopify.com` (src/sitemap_crawler.js lines 572-580). -/
def normalizeImageUrl (origin s : String) : String :=
  let a := absolutizeUrl origin s
  if strContains a "cdn.shopify.com" then replaceFirstSizeToken a else a

/-- Embeds the cents heuristic applied to each variant price in
`crawlCollection` (src/sitemap_crawler.js lines 638-649):
`if (variantPrice > 10000) variantPrice = variantPrice / 100`. -/
def centsNormalize : JSNum → JSNum
  | .num q => if (10000 : ℚ) < q then .num (q / 100) else .num q
  | v => v

/-- A variant's `featured_image` object as read by the cascade: only its
`src` field is consulted (`variant.featured_image.src`). -/
structure RawFeatured where
  src : Option String
deriving DecidableEq

/-- One element of `productJson.images` as consumed by `crawlCollection`:
either a bare string or an object with optional `src` and optional
`variant_ids` array.  Variant IDs are modelled post-`toString`, as the code
immediately stringifies them. -/
inductive RawImg where
  | str (s : String)
  | obj (src : Option String) (variant_ids : Option (List String))
deriving DecidableEq

/-- One element of `productJson.variants` with the fields `crawlCollection`
reads.  `available` is modelled as an optional boolean
(`variant.available !== undefined`). -/
structure RawVariant where
  id : Option String := none
  title : Option String := none
  price : JSNum := .undef
  compare_at_price : JSNum := .undef
  sku : Option String := none
  available : Option Bool := none
  inventory_quantity : JSNum := .undef
  option1 : Option String := none
  option2 : Option String := none
  option3 : Option String := none
  featured_image : Option RawFeatured := none
deriving DecidableEq

/-- The variant object built by `crawlCollection`
(src/sitemap_crawler.js lines 675-687). -/
structure OutVariant where
  id : Option String
  title : Option String
  price : JSNum
  compareAtPrice : JSNum
  sku : String
  available : Bool
  option1 : Option String
  option2 : Option String
  option3 : Option String
  options : List String
  image : Option String
deriving DecidableEq

/-- The two fields of the scraped product JSON consumed by the variant
processing block: `images` and `variants`, each possibly absent. -/
structure ProductJson where
  images : Option (List RawImg)
  variants : Option (List RawVariant)
deriving DecidableEq

/-- `Map.prototype.set` on the variant-image map, modelled as a function
update. -/
def jsMapSet (m : String → Option String) (k v : String) : String → Option String :=
  fun x => if x = k then some v else m x

/-- `img.variant_ids.forEach(variantId => variantImageMap.set(variantId.toString(), fullImageUrl))`
(src/sitemap_crawler.js lines 630-632). -/
def setAll (url : String) (ids : List String) (m : String → Option String) :
    String → Option String :=
  ids.foldl (fun m i => jsMapSet m i url) m

/-- The `productJson.images.forEach` loop building `variantImageMap`
(src/sitemap_crawler.js lines 616-635), threading the map accumulator.
An object carrying a `variant_ids` array but no `src` makes the original
code call `.startsWith` on `undefined`, a TypeError, modelled as `.error`. -/
def buildMapFrom (origin : String) (m : String → Option String) :
    List RawImg → Except Unit (String → Option String)
  | [] => .ok m
  | img :: rest =>
    match img with
    | .str _ => buildMapFrom origin m rest
    | .obj _ none => buildMapFrom origin m rest
    | .obj none (some _) => .error ()
    | .obj (some s) (some ids) =>
      buildMapFrom origin (setAll (normalizeImageUrl origin s) ids m) rest

/-- `variantImageMap` as built by `crawlCollection` from `productJson.images`
(src/sitemap_crawler.js lines 612-635): empty when `images` is absent. -/
def buildMap (origin : String) (images : Option (List RawImg)) :
    Except Unit (String → Option String) :=
  match images with
  | none => .ok (fun _ => none)
  | some imgs => buildMapFrom origin (fun _ => none) imgs

/-- The `images` array computed by `crawlCollection`
(src/sitemap_crawler.js lines 560-584): each entry is taken from a string
element or a truthy `src` field, normalized, and falsy entries are
filtered out. -/
def processImages (origin : String) (images : Option (List RawImg)) : List String :=
  match images with
  | none => []
  | some imgs =>
    imgs.filterMap fun img =>
      match img with
      | .str s => some (normalizeImageUrl origin s)
      | .obj (some s) _ => if s = "" then none else some (normalizeImageUrl origin s)
      | .obj none _ => none

/-- The truthiness test
`variant.featured_image && variant.featured_image.src`. -/
def featuredGuard (v : RawVariant) : Bool :=
  match v.featured_image with
  | some f =>
    match f.src with
    | some s => s != ""
    | none => false
  | none => false

/-- Methods 2 and 3 of the image cascade (src/sitemap_crawler.js lines
667-674): look the stringified variant id up in the map, else fall back to
the first processed image, else null.  `variant.id.toString()` on a missing
id is a TypeError, modelled as `.error`. -/
def resolveImageNoFeat (vmap : String → Option String) (images : List String)
    (v : RawVariant) : Except Unit (Option String) :=
  match v.id with
  | none => .error ()
  | some i =>
    match vmap i with
    | some u => .ok (some u)
    | none =>
      match images with
      | u :: _ => .ok (some u)
      | [] => .ok none

/-- The full image cascade of `crawlCollection` (src/sitemap_crawler.js
lines 651-674): a truthy `featured_image.src` is normalized and used,
otherwise methods 2 and 3 apply. -/
def resolveImage (origin : String) (vmap : String → Option String)
    (images : List String) (v : RawVariant) : Except Unit (Option String) :=
  match v.featured_image with
  | some ⟨some s⟩ =>
    if s = "" then resolveImageNoFeat vmap images v
    else .ok (some (normalizeImageUrl origin s))
  | _ => resolveImageNoFeat vmap images v

/-- One iteration of `productJson.variants.map(variant => ...)`
(src/sitemap_crawler.js lines 637-688): price cents heuristic, image
cascade, and construction of the output variant object.  `productPrice` is
the enclosing product-level `price` used in `variantPrice || price`. -/
def resolveVariant (origin : String) (productPrice : JSNum)
    (vmap : String → Option String) (images : List String) (v : RawVariant) :
    Except Unit OutVariant :=
  match resolveImage origin vmap images v with
  | .error e => .error e
  | .ok img =>
    let variantPrice := centsNormalize v.price
    let variantComparePrice := centsNormalize v.compare_at_price
    .ok {
      id := v.id
      title := v.title
      price := jsOr variantPrice productPrice
      compareAtPrice := jsOrNullNum variantComparePrice
      sku := jsStrOr v.sku ""
      available := match v.available with
        | some b => b
        | none => jsGtZero v.inventory_quantity
      option1 := jsStrOrNull v.option1
      option2 := jsStrOrNull v.option2
      option3 := jsStrOrNull v.option3
      options := ([v.option1, v.option2, v.option3].filterMap id).filter (fun s => s != "")
      image := img }

/-- `Array.prototype.map` with exception propagation: stops at the first
throwing element, as JavaScript does. -/
def mapE (f : α → Except Unit β) : List α → Except Unit (List β)
  | [] => .ok []
  | a :: as =>
    match f a with
    | .error e => .error e
    | .ok b =>
      match mapE f as with
      | .error e => .error e
      | .ok bs => .ok (b :: bs)

/-- The whole variant-processing block of `crawlCollection`
(src/sitemap_crawler.js lines 610-693): an absent `variants` array yields
`[]`; otherwise the variant-image map is built and every variant is
resolved in order. -/
def processVariants (origin : String) (productPrice : JSNum) (pj : ProductJson) :
    Except Unit (List OutVariant) :=
  match pj.variants with
  | none => .ok []
  | some vs =>
    match buildMap origin pj.images with
    | .error e => .error e
    | .ok vmap => mapE (resolveVariant origin productPrice vmap (processImages origin pj.images)) vs

/-- A `featured_image` object of `src/unnamed/part_000`: only `src` is read. -/
structure P0Featured where
  src : Option String
deriving DecidableEq

/-- One element of `productJson.images` in `src/unnamed/part_000`: `src` and
`variant_ids` may each be absent.  IDs are modelled post-`toString`. -/
structure P0Image where
  src : Option String := none
  variant_ids : Option (List String) := none
deriving DecidableEq

/-- One element of `productJson.variants` in `src/unnamed/part_000`, with the
surrounding product fields the frame property talks about.  `image` is the
field the function writes (absent and `undefined` both modelled as `none`). -/
structure P0Variant where
  id : Option String := none
  title : Option String := none
  sku : Option String := none
  price : JSNum := .undef
  option1 : Option String := none
  option2 : Option String := none
  option3 : Option String := none
  featured_image : Option P0Featured := none
  image : Option String := none
deriving DecidableEq

/-- The product JSON consumed by `processVariantImages` of
`src/unnamed/part_000`.  `otherFields` stands for every remaining product
field, none of which the function reads or writes. -/
structure P0Product where
  title : Option String := none
  images : Option (List P0Image) := none
  variants : Option (List P0Variant) := none
  otherFields : String := ""
deriving DecidableEq

/-- The first pass of `processVariantImages` (src/unnamed/part_000 lines
58-67): map every stringified id of every image's `variant_ids` to that
image's raw `src` (which may itself be absent), last write winning. -/
def p0BuildMap (images : Option (List P0Image)) : String → Option (Option String) :=
  match images with
  | none => fun _ => none
  | some imgs =>
    imgs.foldl
      (fun m img =>
        match img.variant_ids with
        | none => m
        | some ids => ids.foldl (fun m i => fun x => if x = i then some img.src else m x) m)
      (fun _ => none)

/-- Fallbacks 2 and 3 of `processVariantImages` (src/unnamed/part_000 lines
76-83): map lookup by stringified id, else the first image's `src`, else the
variant is left untouched.  A missing id is a TypeError at
`variant.id.toString()`, modelled as `.error`. -/
def p0NoFeat (vmap : String → Option (Option String)) (images : Option (List P0Image))
    (v : P0Variant) : Except Unit P0Variant :=
  match v.id with
  | none => .error ()
  | some i =>
    match vmap i with
    | some val => .ok { v with image := val }
    | none =>
      match images with
      | some (img :: _) => .ok { v with image := img.src }
      | _ => .ok v

/-- One iteration of the second pass of `processVariantImages`
(src/unnamed/part_000 lines 71-84): a truthy `featured_image.src` is copied
verbatim into `image`, otherwise the fallbacks apply. -/
def p0ResolveVariant (vmap : String → Option (Option String))
    (images : Option (List P0Image)) (v : P0Variant) : Except Unit P0Variant :=
  match v.featured_image with
  | some ⟨some s⟩ =>
    if s = "" then p0NoFeat vmap images v
    else .ok { v with image := some s }
  | _ => p0NoFeat vmap images v

/-- Embeds `processVariantImages` of `src/unnamed/part_000` (lines 54-88):
build the id-to-image map, then rewrite each variant's `image` field in
place; the product object itself is returned. -/
def processVariantImages (p : P0Product) : Except Unit P0Product :=
  let vmap := p0BuildMap p.images
  match p.variants with
  | none => .ok p
  | some vs =>
    match mapE (p0ResolveVariant vmap p.images) vs with
    | .error e => .error e
    | .ok vs' => .ok { p with variants := some vs' }

/-- Modelled from the spec's words (section 4.1 step 2): the strict priority
cascade — (a) the variant's non-empty featured image source, normalized;
(b) the map entry for the variant's id; (c) the first processed image;
(d) null.  Used to compare the code's cascade against the spec's. -/
def cascadeSpec (origin : String) (vmap : String → Option String)
    (images : List String) (v : RawVariant) : Option String :=
  (((v.featured_image.bind RawFeatured.src).bind fun s =>
      if s = "" then none else some (normalizeImageUrl origin s)).or
    ((v.id.bind vmap).or images.head?))

/-- Modelled from the spec's words (section 4.1 step 1): the normalized URL
of the last image in input order whose `variant_ids` contains `k`.  Used to
compare the code's map build against the spec's last-write-wins reading. -/
def specLast (origin : String) : List RawImg → String → Option String
  | [], _ => none
  | img :: rest, k =>
    match specLast origin rest k with
    | some u => some u
    | none =>
      match img with
      | .obj (some s) (some ids) =>
        if k ∈ ids then some (normalizeImageUrl origin s) else none
      | _ => none

/-- Modelled from the claim's words: a string is an absolute URL when it
carries a scheme separator `://`.  Any relative path fails this test. -/
def isAbsoluteUrlSpec (s : String) : Bool := strContains s "://"

/-- An image element that does not make the map build throw: anything except
an object carrying a `variant_ids` array but no `src`. -/
def imgHasSrcForIds : RawImg → Bool
  | .obj none (some _) => false
  | _ => true

/-- A variant on which the cascade cannot throw: it either passes the
featured-image guard or carries an id. -/
def variantResolvable (v : RawVariant) : Bool := featuredGuard v || v.id.isSome

/-- Base URL of the concrete last-write-wins scenario. -/
def c2origin : String := "https://shop.example"

/-- Two images both tagged with variant id 9; the second must win. -/
def c2imgs : List RawImg :=
  [.obj (some "/x_small_.jpg") (some ["9"]), .obj (some "/y.jpg") (some ["9"])]

/-- The map the code builds from `c2imgs`. -/
def c2map : String → Option String :=
  setAll (normalizeImageUrl c2origin "/y.jpg") ["9"]
    (setAll (normalizeImageUrl c2origin "/x_small_.jpg") ["9"] (fun _ => none))

/-- Product whose single variant has the relative featured source
`httpfoo.jpg`, which starts with `http` and is therefore never resolved. -/
def c3pj : ProductJson :=
  ⟨none, some [{ id := some "1", featured_image := some ⟨some "httpfoo.jpg"⟩ }]⟩

/-- The variant object the code produces from `c3pj`. -/
def c3out : OutVariant :=
  ⟨some "1", none, .undef, .null, "", false, none, none, none, [], some "httpfoo.jpg"⟩

/-- Product whose single variant lacks both `featured_image` and `id`. -/
def c4pj : ProductJson := ⟨some [], some [{ id := none }]⟩

/-- A well-formed product: one plain image, one variant bearing an id. -/
def c4wpj : ProductJson := ⟨some [.str "x.jpg"], some [{ id := some "1" }]⟩

/-- The input of the spec's concrete end-to-end scenario. -/
def c7pj : ProductJson :=
  ⟨some [.obj (some "/a_small_.jpg") (some ["9"])],
   some [{ id := some "9" }, { id := some "10" }]⟩

/-- What the code produces from `c7pj` for variant 9 (map rule). -/
def c7w9 : OutVariant :=
  ⟨some "9", none, .undef, .null, "", false, none, none, none, [],
   some "https://shop.example/a_small_.jpg"⟩

/-- What the code produces from `c7pj` for variant 10 (first-image rule). -/
def c7w10 : OutVariant :=
  ⟨some "10", none, .undef, .null, "", false, none, none, none, [],
   some "https://shop.example/a_small_.jpg"⟩

/-- Product with one id-less variant: the resolver throws, so no output
sequence exists for it. -/
def c8pj : ProductJson := ⟨none, some [{ title := some "Tee" }]⟩

/-- Product with one well-formed variant, for the positive instance. -/
def c8wpj : ProductJson := ⟨none, some [{ id := some "1" }]⟩

/-- The output the code produces from `c8wpj`. -/
def c8wout : List OutVariant :=
  [⟨some "1", none, .undef, .null, "", false, none, none, none, [], none⟩]

/-- A small part_000 product whose one variant picks up its image from the
id-tagged image. -/
def c9wp : P0Product :=
  ⟨some "Tee", some [{ src := some "/img.jpg", variant_ids := some ["1"] }],
   some [{ id := some "1" }], "rest"⟩

/-- The output `processVariantImages` produces from `c9wp`: identical except
for the written `image` field. -/
def c9wq : P0Product :=
  ⟨some "Tee", some [{ src := some "/img.jpg", variant_ids := some ["1"] }],
   some [{ id := some "1", image := some "/img.jpg" }], "rest"⟩

theorem startsL_append {pat m : List Char} (x : List Char)
    (h : startsL pat m = true) : startsL pat (m ++ x) = true := by
  induction pat generalizing m with
  | nil => simp [startsL]
  | cons p ps ih =>
    cases m with
    | nil => simp [startsL] at h
    | cons c cs =>
      simp only [startsL, Bool.and_eq_true] at h
      simp only [List.cons_append, startsL, Bool.and_eq_true]
      exact ⟨h.1, ih h.2⟩

theorem startsL_decomp {pat l : List Char} (h : startsL pat l = true) :
    ∃ rest, l = pat ++ rest := by
  induction pat generalizing l with
  | nil => exact ⟨l, rfl⟩
  | cons p ps ih =>
    cases l with
    | nil => simp [startsL] at h
    | cons c cs =>
      simp only [startsL, Bool.and_eq_true, beq_iff_eq] at h
      obtain ⟨rest, hrest⟩ := ih h.2
      exact ⟨rest, by simp [h.1, hrest]⟩

theorem containsAux_append_right {pat l₁ : List Char} (l₂ : List Char)
    (h : containsAux pat l₁ = true) : containsAux pat (l₁ ++ l₂) = true := by
  induction l₁ with
  | nil =>
    simp only [containsAux, List.isEmpty_iff] at h
    subst h
    cases l₂ with
    | nil => simp [containsAux]
    | cons c cs => simp [containsAux, startsL]
  | cons c cs ih =>
    simp only [containsAux, Bool.or_eq_true] at h
    rcases h with h | h
    · simp only [List.cons_append, containsAux, Bool.or_eq_true]
      exact Or.inl (startsL_append l₂ h)
    · simp only [List.cons_append, containsAux, Bool.or_eq_true]
      exact Or.inr (ih h)

theorem containsAux_append_left {pat : List Char} (l₁ : List Char) {l₂ : List Char}
    (h : containsAux pat l₂ = true) : containsAux pat (l₁ ++ l₂) = true := by
  induction l₁ with
  | nil => simpa using h
  | cons c cs ih =>
    simp only [List.cons_append, containsAux, Bool.or_eq_true]
    exact Or.inr ih

theorem setAll_apply (url : String) (ids : List String)
    (m : String → Option String) (k : String) :
    setAll url ids m k = if k ∈ ids then some url else m k := by
  induction ids generalizing m with
  | nil => simp [setAll]
  | cons i is ih =>
    show setAll url is (jsMapSet m i url) k = _
    rw [ih]
    by_cases his : k ∈ is
    · simp [his, List.mem_cons]
    · by_cases hki : k = i
      · simp [his, hki, jsMapSet, List.mem_cons]
      · simp [his, hki, jsMapSet, List.mem_cons]

theorem buildMapFrom_ok (origin : String) :
    ∀ (imgs : List RawImg) (m m' : String → Option String),
      buildMapFrom origin m imgs = .ok m' →
      ∀ k, m' k = (specLast origin imgs k).or (m k) := by
  intro imgs
  induction imgs with
  | nil =>
    intro m m' h k
    simp only [buildMapFrom, Except.ok.injEq] at h
    subst h
    simp [specLast]
  | cons img rest ih =>
    intro m m' h k
    cases img with
    | str s =>
      simp only [buildMapFrom] at h
      rw [ih m m' h k]
      cases hr : specLast origin rest k <;> simp [specLast, hr]
    | obj src vids =>
      cases src with
      | none =>
        cases vids with
        | none =>
          simp only [buildMapFrom] at h
          rw [ih m m' h k]
          cases hr : specLast origin rest k <;> simp [specLast, hr]
        | some ids => simp [buildMapFrom] at h
      | some s =>
        cases vids with
        | none =>
          simp only [buildMapFrom] at h
          rw [ih m m' h k]
          cases hr : specLast origin rest k <;> simp [specLast, hr]
        | some ids =>
          simp only [buildMapFrom] at h
          rw [ih _ m' h k, setAll_apply]
          by_cases hk : k ∈ ids
          · cases hr : specLast origin rest k <;> simp [specLast, hr, hk]
          · cases hr : specLast origin rest k <;> simp [specLast, hr, hk]

theorem buildMap_ok_spec {origin : String} {imgs : List RawImg}
    {m : String → Option String} (h : buildMap origin (some imgs) = .ok m) :
    ∀ k, m k = specLast origin imgs k := by
  intro k
  have := buildMapFrom_ok origin imgs (fun _ => none) m h k
  simpa using this

theorem specLast_values {origin : String} :
    ∀ {imgs : List RawImg} {k u : String},
      specLast origin imgs k = some u → ∃ s, u = normalizeImageUrl origin s := by
  intro imgs
  induction imgs with
  | nil => intro k u h; simp [specLast] at h
  | cons img rest ih =>
    intro k u h
    simp only [specLast] at h
    cases hr : specLast origin rest k with
    | some w => rw [hr] at h; exact ih (hr.trans (by injection h with h; rw [h]))
    | none =>
      rw [hr] at h
      cases img with
      | str s => simp at h
      | obj src vids =>
        cases src with
        | none => cases vids <;> simp at h
        | some s =>
          cases vids with
          | none => simp at h
          | some ids =>
            by_cases hk : k ∈ ids
            · simp only [hk, if_true] at h
              exact ⟨s, by injection h with h; rw [h]⟩
            · simp [hk] at h

theorem mapE_ok_length {f : α → Except Unit β} :
    ∀ {l : List α} {l' : List β}, mapE f l = .ok l' → l'.length = l.length := by
  intro l
  induction l with
  | nil => intro l' h; simp only [mapE, Except.ok.injEq] at h; subst h; rfl
  | cons a as ih =>
    intro l' h
    simp only [mapE] at h
    cases hf : f a with
    | error e => rw [hf] at h; exact absurd h (by simp)
    | ok b =>
      rw [hf] at h
      cases hm : mapE f as with
      | error e => rw [hm] at h; exact absurd h (by simp)
      | ok bs =>
        rw [hm] at h
        simp only [Except.ok.injEq] at h
        subst h
        simp [ih hm]

theorem mapE_ok_get {f : α → Except Unit β} :
    ∀ {l : List α} {l' : List β}, mapE f l = .ok l' →
      ∀ i (h1 : i < l.length) (h2 : i < l'.length),
        f (l.get ⟨i, h1⟩) = .ok (l'.get ⟨i, h2⟩) := by
  intro l
  induction l with
  | nil => intro l' _ i h1 _; exact absurd h1 (by simp)
  | cons a as ih =>
    intro l' h i h1 h2
    simp only [mapE] at h
    cases hf : f a with
    | error e => rw [hf] at h; exact absurd h (by simp)
    | ok b =>
      rw [hf] at h
      cases hm : mapE f as with
      | error e => rw [hm] at h; exact absurd h (by simp)
      | ok bs =>
        rw [hm] at h
        simp only [Except.ok.injEq] at h
        subst h
        cases i with
        | zero => simpa using hf
        | succ n => exact ih hm n (Nat.lt_of_succ_lt_succ h1) (Nat.lt_of_succ_lt_succ h2)

theorem mapE_ok_mem {f : α → Except Unit β} :
    ∀ {l : List α} {l' : List β}, mapE f l = .ok l' →
      ∀ b ∈ l', ∃ a ∈ l, f a = .ok b := by
  intro l
  induction l with
  | nil =>
    intro l' h b hb
    simp only [mapE, Except.ok.injEq] at h
    subst h
    simp at hb
  | cons a as ih =>
    intro l' h b hb
    simp only [mapE] at h
    cases hf : f a with
    | error e => rw [hf] at h; exact absurd h (by simp)
    | ok c =>
      rw [hf] at h
      cases hm : mapE f as with
      | error e => rw [hm] at h; exact absurd h (by simp)
      | ok bs =>
        rw [hm] at h
        simp only [Except.ok.injEq] at h
        subst h
        rcases List.mem_cons.mp hb with rfl | hb
        · exact ⟨a, List.mem_cons_self a as, hf⟩
        · obtain ⟨x, hx, hfx⟩ := ih hm b hb
          exact ⟨x, List.mem_cons_of_mem a hx, hfx⟩

theorem mapE_total {f : α → Except Unit β} :
    ∀ {l : List α}, (∀ a ∈ l, ∃ b, f a = .ok b) → ∃ l', mapE f l = .ok l' := by
  intro l
  induction l with
  | nil => exact fun _ => ⟨[], rfl⟩
  | cons a as ih =>
    intro h
    obtain ⟨b, hb⟩ := h a (List.mem_cons_self a as)
    obtain ⟨bs, hbs⟩ := ih fun x hx => h x (List.mem_cons_of_mem a hx)
    exact ⟨b :: bs, by simp [mapE, hb, hbs]⟩

theorem resolveImage_of_guard_false {origin : String} {vmap : String → Option String}
    {images : List String} {v : RawVariant} (h : featuredGuard v = false) :
    resolveImage origin vmap images v = resolveImageNoFeat vmap images v := by
  rcases hv : v.featured_image with _ | ⟨src⟩
  · simp [resolveImage, hv]
  · rcases src with _ | s
    · simp [resolveImage, hv]
    · simp only [featuredGuard, hv, bne_iff_ne, ne_eq, Bool.decide_eq_false] at h
      have hs : s = "" := by
        by_contra hne
        simp [hne] at h
      simp [resolveImage, hv, hs]

theorem resolveImage_eq_cascadeSpec {origin : String} {vmap : String → Option String}
    {images : List String} {v : RawVariant} {i : String} (hid : v.id = some i) :
    resolveImage origin vmap images v = .ok (cascadeSpec origin vmap images v) := by
  have hnofeat : resolveImageNoFeat vmap images v = .ok ((vmap i).or images.head?) := by
    simp only [resolveImageNoFeat, hid]
    cases hm : vmap i with
    | some u => simp
    | none =>
      cases images with
      | nil => simp
      | cons u rest => simp
  rcases hv : v.featured_image with _ | ⟨src⟩
  · simp only [resolveImage, hv]
    rw [hnofeat]
    simp [cascadeSpec, hv, hid]
  · rcases src with _ | s
    · simp only [resolveImage, hv]
      rw [hnofeat]
      simp [cascadeSpec, hv, hid]
    · by_cases hs : s = ""
      · simp only [resolveImage, hv, hs, if_true]
        rw [hnofeat]
        simp [cascadeSpec, hv, hs, hid]
      · simp [resolveImage, cascadeSpec, hv, hs, hid]

theorem resolveVariant_ok_of {origin : String} {pp : JSNum}
    {vmap : String → Option String} {images : List String} {v : RawVariant}
    {img : Option String} (h : resolveImage origin vmap images v = .ok img) :
    resolveVariant origin pp vmap images v = .ok {
      id := v.id
      title := v.title
      price := jsOr (centsNormalize v.price) pp
      compareAtPrice := jsOrNullNum (centsNormalize v.compare_at_price)
      sku := jsStrOr v.sku ""
      available := match v.available with
        | some b => b
        | none => jsGtZero v.inventory_quantity
      option1 := jsStrOrNull v.option1
      option2 := jsStrOrNull v.option2
      option3 := jsStrOrNull v.option3
      options := ([v.option1, v.option2, v.option3].filterMap id).filter (fun s => s != "")
      image := img } := by
  simp [resolveVariant, h]

theorem resolveVariant_ok_fields {origin : String} {pp : JSNum}
    {vmap : String → Option String} {images : List String} {v : RawVariant}
    {w : OutVariant} (h : resolveVariant origin pp vmap images v = .ok w) :
    resolveImage origin vmap images v = .ok w.image ∧
      w.id = v.id ∧ w.title = v.title ∧
      w.price = jsOr (centsNormalize v.price) pp := by
  cases himg : resolveImage origin vmap images v with
  | error e => simp [resolveVariant, himg] at h
  | ok img =>
    rw [resolveVariant_ok_of himg] at h
    injection h with h
    subst h
    exact ⟨rfl, rfl, rfl, rfl⟩

theorem findRepl_ne_nil : ∀ {l l' : List Char}, findRepl l = some l' → l' ≠ [] := by
  intro l
  induction l with
  | nil => intro l' h; simp [findRepl] at h
  | cons c cs ih =>
    intro l' h
    simp only [findRepl] at h
    cases ht : tokenAt sizeTokens (c :: cs) with
    | some rest =>
      rw [ht] at h
      injection h with h
      subst h
      simp
    | none =>
      rw [ht] at h
      cases hf : findRepl cs with
      | some cs' =>
        rw [hf] at h
        injection h with h
        subst h
        simp
      | none => rw [hf] at h; exact absurd h (by simp)

theorem replaceFirst_no_token {s : String} (h : hasSizeToken s = false) :
    replaceFirstSizeToken s = s := by
  have h2 : findRepl s.data = none := by
    cases hf : findRepl s.data with
    | none => rfl
    | some l => rw [hasSizeToken, hf] at h; simp at h
  simp [replaceFirstSizeToken, h2]

theorem getHighRes_ok_ne_empty {u : Option String} {s : String}
    (h : getHighResImage u = some s) : s ≠ "" := by
  rcases u with _ | t
  · simp [getHighResImage] at h
  · by_cases ht : t = ""
    · simp [getHighResImage, ht] at h
    · have hrepl : replaceFirstSizeToken t ≠ "" := by
        unfold replaceFirstSizeToken
        cases hf : findRepl t.data with
        | some l =>
          show (⟨l⟩ : String) ≠ ""
          have hne := findRepl_ne_nil hf
          intro hcontra
          exact hne (by simpa using congrArg String.data hcontra)
        | none => exact ht
      have h' : (if strContains t "cdn.shopify.com" = true
          then some (replaceFirstSizeToken t) else some t) = some s := by
        simpa [getHighResImage, ht] using h
      by_cases hc : strContains t "cdn.shopify.com" = true
      · rw [if_pos hc] at h'
        injection h' with h'
        rw [← h']
        exact hrepl
      · rw [if_neg hc] at h'
        injection h' with h'
        rw [← h']
        exact ht

theorem processImages_mem {origin : String} {images : Option (List RawImg)}
    {u : String} (h : u ∈ processImages origin images) :
    ∃ s, u = normalizeImageUrl origin s := by
  cases images with
  | none => simp [processImages] at h
  | some imgs =>
    simp only [processImages, List.mem_filterMap] at h
    obtain ⟨img, _, himg⟩ := h
    cases img with
    | str s => exact ⟨s, by injection himg with h; rw [h]⟩
    | obj src vids =>
      cases src with
      | none => simp at himg
      | some s =>
        by_cases hs : s = ""
        · simp [hs] at himg
        · simp only [hs, if_false] at himg
          exact ⟨s, by injection himg with h; rw [h]⟩

theorem buildMap_values {origin : String} {images : Option (List RawImg)}
    {m : String → Option String} (h : buildMap origin images = .ok m) :
    ∀ k u, m k = some u → ∃ s, u = normalizeImageUrl origin s := by
  intro k u hk
  cases images with
  | none =>
    simp only [buildMap, Except.ok.injEq] at h
    subst h
    simp at hk
  | some imgs =>
    rw [buildMap_ok_spec h] at hk
    exact specLast_values hk

theorem resolveImageNoFeat_ok_cases {vmap : String → Option String}
    {images : List String} {v : RawVariant} {img : Option String}
    (h : resolveImageNoFeat vmap images v = .ok img) :
    img = none ∨ (∃ i u, vmap i = some u ∧ img = some u) ∨
      (∃ u, u ∈ images ∧ img = some u) := by
  cases hid : v.id with
  | none => simp [resolveImageNoFeat, hid] at h
  | some i =>
    simp only [resolveImageNoFeat, hid] at h
    cases hm : vmap i with
    | some u =>
      rw [hm] at h
      injection h with h
      exact Or.inr (Or.inl ⟨i, u, hm, h.symm⟩)
    | none =>
      rw [hm] at h
      cases images with
      | nil => injection h with h; exact Or.inl h.symm
      | cons u rest =>
        injection h with h
        exact Or.inr (Or.inr ⟨u, List.mem_cons_self u rest, h.symm⟩)

theorem resolveImage_ok_cases {origin : String} {vmap : String → Option String}
    {images : List String} {v : RawVariant} {img : Option String}
    (h : resolveImage origin vmap images v = .ok img) :
    img = none ∨ (∃ s, img = some (normalizeImageUrl origin s)) ∨
      (∃ i u, vmap i = some u ∧ img = some u) ∨
      (∃ u, u ∈ images ∧ img = some u) := by
  have lift : resolveImageNoFeat vmap images v = .ok img →
      img = none ∨ (∃ s, img = some (normalizeImageUrl origin s)) ∨
      (∃ i u, vmap i = some u ∧ img = some u) ∨
      (∃ u, u ∈ images ∧ img = some u) := by
    intro h'
    rcases resolveImageNoFeat_ok_cases h' with h'' | h'' | h''
    · exact Or.inl h''
    · exact Or.inr (Or.inr (Or.inl h''))
    · exact Or.inr (Or.inr (Or.inr h''))
  rcases hf : v.featured_image with _ | ⟨_ | s⟩
  · exact lift (by simpa [resolveImage, hf] using h)
  · exact lift (by simpa [resolveImage, hf] using h)
  · by_cases hs : s = ""
    · exact lift (by simpa [resolveImage, hf, hs] using h)
    · simp only [resolveImage, hf, hs, if_false] at h
      injection h with h
      exact Or.inr (Or.inl ⟨s, h.symm⟩)

theorem featuredGuard_true_resolveImage {origin : String}
    {vmap : String → Option String} {images : List String} {v : RawVariant}
    (h : featuredGuard v = true) :
    ∃ s, resolveImage origin vmap images v = .ok (some (normalizeImageUrl origin s)) := by
  rcases hf : v.featured_image with _ | ⟨_ | s⟩
  · simp [featuredGuard, hf] at h
  · simp [featuredGuard, hf] at h
  · have hs : ¬ s = "" := by
      simp only [featuredGuard, hf] at h
      simpa using h
    exact ⟨s, by simp [resolveImage, hf, hs]⟩

theorem resolveVariant_total {origin : String} {pp : JSNum}
    {vmap : String → Option String} {images : List String} {v : RawVariant}
    (h : variantResolvable v = true) :
    ∃ w, resolveVariant origin pp vmap images v = .ok w := by
  cases hid : v.id with
  | some i =>
    exact ⟨_, resolveVariant_ok_of (@resolveImage_eq_cascadeSpec origin vmap images v i hid)⟩
  | none =>
    have hg : featuredGuard v = true := by
      simp only [variantResolvable, hid, Bool.or_eq_true] at h
      rcases h with h | h
      · exact h
      · simp at h
    obtain ⟨s, hs⟩ := @featuredGuard_true_resolveImage origin vmap images v hg
    exact ⟨_, resolveVariant_ok_of hs⟩

theorem buildMapFrom_total {origin : String} :
    ∀ {imgs : List RawImg}, (∀ img ∈ imgs, imgHasSrcForIds img = true) →
      ∀ m, ∃ m', buildMapFrom origin m imgs = .ok m' := by
  intro imgs
  induction imgs with
  | nil => exact fun _ m => ⟨m, rfl⟩
  | cons img rest ih =>
    intro h m
    have hrest := fun x hx => h x (List.mem_cons_of_mem img hx)
    cases img with
    | str s => exact ih hrest m
    | obj src vids =>
      cases src with
      | some s =>
        cases vids with
        | none => exact ih hrest m
        | some ids => exact ih hrest _
      | none =>
        cases vids with
        | none => exact ih hrest m
        | some ids =>
          have := h _ (List.mem_cons_self _ rest)
          simp [imgHasSrcForIds] at this

theorem jsNewURL_absolute (origin s : String)
    (horigin : strContains origin "://" = true) :
    isAbsoluteUrlSpec (jsNewURL s origin) = true := by
  unfold jsNewURL isAbsoluteUrlSpec strContains
  unfold strContains at horigin
  by_cases h2 : strStartsWith s "//" = true
  · rw [if_pos h2]
    have h2' : startsL ("//").data s.data = true := h2
    obtain ⟨rest, hrest⟩ := startsL_decomp h2'
    rw [String.data_append, String.data_append, List.append_assoc]
    apply containsAux_append_left
    rw [hrest]
    show containsAux [':', '/', '/'] ([':'] ++ (['/', '/'] ++ rest)) = true
    simp [containsAux, startsL]
  · rw [if_neg h2]
    by_cases h3 : strStartsWith s "/" = true
    · rw [if_pos h3, String.data_append]
      exact containsAux_append_right _ horigin
    · rw [if_neg h3, String.data_append, String.data_append, List.append_assoc]
      exact containsAux_append_right _ horigin

theorem p0NoFeat_frame {vmap : String → Option (Option String)}
    {images : Option (List P0Image)} {v w : P0Variant}
    (h : p0NoFeat vmap images v = .ok w) : w = { v with image := w.image } := by
  unfold p0NoFeat at h
  split at h
  · exact absurd h (by simp)
  · split at h
    · injection h with h; subst h; rfl
    · split at h
      · injection h with h; subst h; rfl
      · injection h with h; subst h; rfl

theorem p0Resolve_frame {vmap : String → Option (Option String)}
    {images : Option (List P0Image)} {v w : P0Variant}
    (h : p0ResolveVariant vmap images v = .ok w) : w = { v with image := w.image } := by
  unfold p0ResolveVariant at h
  split at h
  · split at h
    · exact p0NoFeat_frame h
    · injection h with h; subst h; rfl
  · exact p0NoFeat_frame h

/-- Claim C1: for every variant (bearing an id, as the data model provides),
the resolved image equals the first applicable rule of the spec's strict
priority cascade — featured source, then map entry, then first image, then
null — and no lower-priority rule matters once a higher one fires. -/
theorem c1_variant_image_cascade (origin : String) (pp : JSNum)
    (vmap : String → Option String) (images : List String) (v : RawVariant)
    (i : String) (hid : v.id = some i) :
    ∃ w, resolveVariant origin pp vmap images v = .ok w ∧
      w.image = cascadeSpec origin vmap images v :=
  ⟨_, resolveVariant_ok_of (@resolveImage_eq_cascadeSpec origin vmap images v i hid), rfl⟩

/-- Witness for C1 at a concrete variant with id 9, empty map and no
images: the cascade yields null. -/
theorem c1_variant_image_cascade_witness :
    ∃ w, resolveVariant "https://shop.example" JSNum.undef (fun _ => none) []
        { id := some "9" } = .ok w ∧
      w.image = cascadeSpec "https://shop.example" (fun _ => none) [] { id := some "9" } :=
  c1_variant_image_cascade "https://shop.example" JSNum.undef (fun _ => none) []
    { id := some "9" } "9" rfl

/-- Claim C2: the variant-id map built from the images list agrees with the
spec's "last write in input order wins" description at every key, and a
variant without a featured image whose id is mapped resolves to that
(normalized) last-written URL. -/
theorem c2_variant_image_map_last_write (origin : String) (imgs : List RawImg)
    (m : String → Option String) (hm : buildMap origin (some imgs) = .ok m) :
    (∀ k, m k = specLast origin imgs k) ∧
    (∀ (pp : JSNum) (images : List String) (v : RawVariant) (i u : String),
      featuredGuard v = false → v.id = some i → specLast origin imgs i = some u →
      ∃ w, resolveVariant origin pp m images v = .ok w ∧ w.image = some u) := by
  have hspec := buildMap_ok_spec hm
  refine ⟨hspec, ?_⟩
  intro pp images v i u hguard hid hlast
  have himg : resolveImage origin m images v = .ok (some u) := by
    rw [resolveImage_of_guard_false hguard]
    simp [resolveImageNoFeat, hid, hspec i, hlast]
  exact ⟨_, resolveVariant_ok_of himg, rfl⟩

/-- Witness for C2: with two images both tagged for variant 9, the variant
resolves to the second image's normalized URL. -/
theorem c2_variant_image_map_last_write_witness :
    ∃ w, resolveVariant c2origin JSNum.undef c2map [] { id := some "9" } = .ok w ∧
      w.image = some (normalizeImageUrl c2origin "/y.jpg") :=
  (c2_variant_image_map_last_write c2origin c2imgs c2map rfl).2 JSNum.undef []
    { id := some "9" } "9" (normalizeImageUrl c2origin "/y.jpg") rfl rfl rfl

/-- Claim C5: the cents heuristic divides any numeric price strictly above
10000 by 100 and leaves any other number unchanged; 12999 becomes 129.99,
45 stays 45; and every resolved variant's price is the heuristic's result
(or the product price when that result is falsy). -/
theorem c5_price_normalization :
    (∀ q : ℚ, 10000 < q → centsNormalize (.num q) = .num (q / 100)) ∧
    (∀ q : ℚ, ¬ 10000 < q → centsNormalize (.num q) = .num q) ∧
    centsNormalize (.num 12999) = .num (129.99 : ℚ) ∧
    centsNormalize (.num 45) = .num 45 ∧
    (∀ (origin : String) (pp : JSNum) (vmap : String → Option String)
      (images : List String) (v : RawVariant) (w : OutVariant),
      resolveVariant origin pp vmap images v = .ok w →
      w.price = jsOr (centsNormalize v.price) pp) := by
  refine ⟨?_, ?_, ?_, ?_, ?_⟩
  · intro q h; simp [centsNormalize, h]
  · intro q h; simp [centsNormalize, h]
  · norm_num [centsNormalize]
  · norm_num [centsNormalize]
  · intro origin pp vmap images v w h
    exact (resolveVariant_ok_fields h).2.2.2

/-- Witness for C5 at the concrete price 20000, which exceeds the
threshold and is divided by 100. -/
theorem c5_price_normalization_witness :
    centsNormalize (.num 20000) = .num (20000 / 100) :=
  c5_price_normalization.1 20000 (by norm_num)

/-- Counterexample to C6 as stated: the CDN URL `…/a_2048x2048_small_.jpg`
already contains the 2048x2048 token in place of a size-suffix token (it is
the rewrite of `…/a_small_small_.jpg`), yet a second application rewrites it
again, so rewrite∘rewrite differs from rewrite on this input. -/
theorem c6_counterexample :
    getHighResImage (some "https://cdn.shopify.com/a_small_small_.jpg")
        = some "https://cdn.shopify.com/a_2048x2048_small_.jpg" ∧
    getHighResImage (some "https://cdn.shopify.com/a_2048x2048_small_.jpg")
        = some "https://cdn.shopify.com/a_2048x2048_2048x2048_.jpg" ∧
    ("https://cdn.shopify.com/a_2048x2048_2048x2048_.jpg" : String)
        ≠ "https://cdn.shopify.com/a_2048x2048_small_.jpg" := by
  refine ⟨rfl, rfl, ?_⟩
  decide

/-- Claim C6 (amended): the rewrite is idempotent on every URL whose first
rewrite leaves no size-suffix token — a second application then returns the
URL unchanged.  (A URL with two adjacent size tokens, as in the
counterexample, still contains a token after one rewrite.) -/
theorem c6_high_res_rewrite_idempotent (u : Option String) (s : String)
    (h1 : getHighResImage u = some s) (h2 : hasSizeToken s = false) :
    getHighResImage (getHighResImage u) = getHighResImage u := by
  rw [h1]
  have hs : s ≠ "" := getHighRes_ok_ne_empty h1
  show (if s = "" then none
    else if strContains s "cdn.shopify.com" = true
      then some (replaceFirstSizeToken s) else some s) = some s
  rw [if_neg hs]
  by_cases hc : strContains s "cdn.shopify.com" = true
  · rw [if_pos hc, replaceFirst_no_token h2]
  · rw [if_neg hc]

/-- Witness for C6 (amended) at a CDN URL with a single size token. -/
theorem c6_high_res_rewrite_idempotent_witness :
    getHighResImage (getHighResImage (some "https://cdn.shopify.com/a_small_.jpg"))
      = getHighResImage (some "https://cdn.shopify.com/a_small_.jpg") :=
  c6_high_res_rewrite_idempotent (some "https://cdn.shopify.com/a_small_.jpg")
    "https://cdn.shopify.com/a_2048x2048_.jpg" rfl (by decide)

/-- Claim C10: `normalizePrice` sends every falsy input — 0, null,
undefined, NaN — to null, and returns the boundary value 10000 unchanged. -/
theorem c10_normalizePrice_falsy :
    normalizePrice (.num 0) = .null ∧ normalizePrice .null = .null ∧
    normalizePrice .undef = .null ∧ normalizePrice .nan = .null ∧
    normalizePrice (.num 10000) = .num 10000 := by
  refine ⟨?_, rfl, rfl, rfl, ?_⟩
  · norm_num [normalizePrice, jsTruthy]
  · norm_num [normalizePrice, jsTruthy, jsGt10000]

/-- Counterexample to C3 as stated: the featured source `httpfoo.jpg` is a
relative URL, but because it starts with the characters `http` the code
never resolves it against the base URL, so the resolved image is not an
absolute URL. -/
theorem c3_counterexample :
    processVariants "https://shop.example" JSNum.undef c3pj = .ok [c3out] ∧
    c3out.image = some "httpfoo.jpg" ∧
    isAbsoluteUrlSpec "httpfoo.jpg" = false :=
  ⟨rfl, rfl, rfl⟩

/-- Claim C3 (amended): every non-null resolved image is the code's
normalization of some source URL; the normalization resolves URLs not
starting with the characters `http` against the base URL into an absolute
URL (URLs starting with `http` pass through unchanged even when relative);
the size rewrite applies exactly to URLs containing the substring
`cdn.shopify.com` (a substring test, not a host test) and leaves other
URLs — which stay absolute — unchanged. -/
theorem c3_image_normalization (origin : String) (pp : JSNum) (pj : ProductJson)
    (out : List OutVariant) (horigin : strContains origin "://" = true)
    (hout : processVariants origin pp pj = .ok out) :
    (∀ w ∈ out, w.image = none ∨ ∃ s, w.image = some (normalizeImageUrl origin s)) ∧
    (∀ s, strStartsWith s "http" = false →
      isAbsoluteUrlSpec (absolutizeUrl origin s) = true) ∧
    (∀ s, strContains (absolutizeUrl origin s) "cdn.shopify.com" = false →
      normalizeImageUrl origin s = absolutizeUrl origin s) ∧
    (∀ s, strStartsWith s "http" = false →
      strContains (absolutizeUrl origin s) "cdn.shopify.com" = false →
      isAbsoluteUrlSpec (normalizeImageUrl origin s) = true) := by
  have habs : ∀ s, strStartsWith s "http" = false →
      isAbsoluteUrlSpec (absolutizeUrl origin s) = true := by
    intro s hs
    unfold absolutizeUrl
    rw [if_neg (by simp [hs])]
    exact jsNewURL_absolute origin s horigin
  have hpass : ∀ s, strContains (absolutizeUrl origin s) "cdn.shopify.com" = false →
      normalizeImageUrl origin s = absolutizeUrl origin s := by
    intro s hc
    unfold normalizeImageUrl
    simp [hc]
  refine ⟨?_, habs, hpass, ?_⟩
  · intro w hw
    cases hv : pj.variants with
    | none =>
      unfold processVariants at hout
      rw [hv] at hout
      injection hout with hout
      rw [← hout] at hw
      simp at hw
    | some vs =>
      unfold processVariants at hout
      rw [hv] at hout
      cases hbm : buildMap origin pj.images with
      | error e => rw [hbm] at hout; exact absurd hout (by simp)
      | ok vmap =>
        rw [hbm] at hout
        obtain ⟨v, _, hres⟩ := mapE_ok_mem hout w hw
        have himg := (resolveVariant_ok_fields hres).1
        rcases resolveImage_ok_cases himg with h0 | h0 | h0 | h0
        · exact Or.inl h0
        · exact Or.inr h0
        · obtain ⟨i, u, hu, himgeq⟩ := h0
          obtain ⟨s, hs⟩ := buildMap_values hbm i u hu
          exact Or.inr ⟨s, by rw [himgeq, hs]⟩
        · obtain ⟨u, hu, himgeq⟩ := h0
          obtain ⟨s, hs⟩ := processImages_mem hu
          exact Or.inr ⟨s, by rw [himgeq, hs]⟩
  · intro s h1 h2
    rw [hpass s h2]
    exact habs s h1

/-- Witness for C3 (amended) at the root-relative URL `/x.jpg`, which the
code resolves into an absolute URL. -/
theorem c3_image_normalization_witness :
    isAbsoluteUrlSpec (absolutizeUrl "https://shop.example" "/x.jpg") = true :=
  (c3_image_normalization "https://shop.example" JSNum.undef ⟨none, some []⟩ []
    rfl rfl).2.1 "/x.jpg" rfl

/-- Counterexample to C4 as stated: on a variant with neither
`featured_image` nor `id`, the code evaluates `variant.id.toString()` and
throws instead of falling through to the first-image fallback. -/
theorem c4_counterexample :
    processVariants "https://shop.example" JSNum.undef c4pj = .error () :=
  rfl

/-- Claim C4 (amended): the resolver never throws on inputs in which every
image tagged with `variant_ids` has a `src` and every variant either passes
the featured-image guard or carries an id; a variant with neither throws a
TypeError at the map lookup instead of falling through. -/
theorem c4_no_throw_for_resolvable (origin : String) (pp : JSNum) (pj : ProductJson)
    (himgs : ∀ imgs, pj.images = some imgs → ∀ img ∈ imgs, imgHasSrcForIds img = true)
    (hvars : ∀ vs, pj.variants = some vs → ∀ v ∈ vs, variantResolvable v = true) :
    ∃ out, processVariants origin pp pj = .ok out := by
  cases hv : pj.variants with
  | none => exact ⟨[], by simp [processVariants, hv]⟩
  | some vs =>
    have hbm : ∃ vmap, buildMap origin pj.images = .ok vmap := by
      cases hi : pj.images with
      | none => exact ⟨fun _ => none, rfl⟩
      | some imgs =>
        simpa [buildMap] using buildMapFrom_total (himgs imgs hi) (fun _ => none)
    obtain ⟨vmap, hvmap⟩ := hbm
    have htot := fun v hv2 =>
      @resolveVariant_total origin pp vmap (processImages origin pj.images) v
        (hvars vs hv v hv2)
    obtain ⟨out, hout⟩ := mapE_total htot
    exact ⟨out, by simp [processVariants, hv, hvmap, hout]⟩

/-- Witness for C4 (amended) at a product with one plain image and one
variant bearing an id. -/
theorem c4_no_throw_for_resolvable_witness :
    ∃ out, processVariants "https://shop.example" JSNum.undef c4wpj = .ok out :=
  c4_no_throw_for_resolvable "https://shop.example" JSNum.undef c4wpj
    (by
      intro imgs h img hm
      have h2 := Option.some.inj h
      rw [← h2] at hm
      simp at hm
      subst hm
      rfl)
    (by
      intro vs h v hm
      have h2 := Option.some.inj h
      rw [← h2] at hm
      simp at hm
      subst hm
      rfl)

/-- Counterexample to C7 as stated: on the spec's concrete scenario the
resolved image of both variants is `https://shop.example/a_small_.jpg`, not
`https://shop.example/a_2048x2048_.jpg` — the size rewrite never fires
because the URL does not contain `cdn.shopify.com`. -/
theorem c7_counterexample :
    processVariants "https://shop.example" JSNum.undef c7pj = .ok [c7w9, c7w10] ∧
    c7w9.image ≠ some "https://shop.example/a_2048x2048_.jpg" ∧
    c7w10.image ≠ some "https://shop.example/a_2048x2048_.jpg" := by
  refine ⟨rfl, ?_, ?_⟩ <;> decide

/-- Claim C7 (amended): on the concrete scenario, variant 9 resolves via
the variant-id mapping and variant 10 via the first-image fallback, both to
`https://shop.example/a_small_.jpg`; the `_small_` token survives because
the host is not the Shopify CDN. -/
theorem c7_concrete_scenario :
    processVariants "https://shop.example" JSNum.undef c7pj = .ok [c7w9, c7w10] ∧
    c7w9.image = some "https://shop.example/a_small_.jpg" ∧
    c7w10.image = some "https://shop.example/a_small_.jpg" :=
  ⟨rfl, rfl, rfl⟩

/-- Counterexample to C8 as stated: for the input `c8pj`, whose single
variant lacks an id, the resolver throws, so no output sequence exists at
all — in particular none of the same length as the one-element input. -/
theorem c8_counterexample :
    processVariants "https://shop.example" JSNum.undef c8pj = .error () ∧
    c8pj.variants = some [{ title := some "Tee" }] :=
  ⟨rfl, rfl⟩

/-- Claim C8 (amended): whenever the resolver returns an output, the output
has exactly the length of the input variants list, and the element at every
position is the resolution of the input variant at that same position (in
particular ids and titles align); an absent variants list yields `[]`. -/
theorem c8_output_alignment (origin : String) (pp : JSNum) (pj : ProductJson)
    (out : List OutVariant) (hout : processVariants origin pp pj = .ok out) :
    (pj.variants = none → out = []) ∧
    (∀ vs, pj.variants = some vs →
      out.length = vs.length ∧
      ∃ vmap, buildMap origin pj.images = .ok vmap ∧
        ∀ i (h1 : i < vs.length) (h2 : i < out.length),
          resolveVariant origin pp vmap (processImages origin pj.images)
              (vs.get ⟨i, h1⟩) = .ok (out.get ⟨i, h2⟩) ∧
          (out.get ⟨i, h2⟩).id = (vs.get ⟨i, h1⟩).id ∧
          (out.get ⟨i, h2⟩).title = (vs.get ⟨i, h1⟩).title) := by
  cases hv : pj.variants with
  | none =>
    unfold processVariants at hout
    rw [hv] at hout
    injection hout with hout
    refine ⟨fun _ => hout.symm, ?_⟩
    intro vs h
    exact absurd h (by simp)
  | some vs =>
    unfold processVariants at hout
    rw [hv] at hout
    refine ⟨?_, ?_⟩
    · intro h
      exact absurd h (by simp)
    intro vs0 hvs0
    injection hvs0 with hvs0
    subst hvs0
    cases hbm : buildMap origin pj.images with
    | error e => rw [hbm] at hout; exact absurd hout (by simp)
    | ok vmap =>
      rw [hbm] at hout
      refine ⟨mapE_ok_length hout, vmap, rfl, ?_⟩
      intro i h1 h2
      have hres := mapE_ok_get hout i h1 h2
      have hf := resolveVariant_ok_fields hres
      exact ⟨hres, hf.2.1, hf.2.2.1⟩

/-- Witness for C8 (amended): on a one-variant product the output has
length one. -/
theorem c8_output_alignment_witness :
    c8wout.length = [({ id := some "1" } : RawVariant)].length :=
  ((c8_output_alignment "https://shop.example" JSNum.undef c8wpj c8wout rfl).2
    [{ id := some "1" }] rfl).1

/-- Claim C9: `processVariantImages` only writes the `image` field: the
product's `images`, `title` and remaining fields come back unchanged, the
variants list keeps its length and order, and every output variant differs
from its input variant at most in `image`. -/
theorem c9_frame_processVariantImages (p q : P0Product)
    (h : processVariantImages p = .ok q) :
    q.images = p.images ∧ q.title = p.title ∧ q.otherFields = p.otherFields ∧
    (p.variants = none → q = p) ∧
    (∀ vs, p.variants = some vs → ∃ vs', q.variants = some vs' ∧
      vs'.length = vs.length ∧
      ∀ i (h1 : i < vs.length) (h2 : i < vs'.length),
        vs'.get ⟨i, h2⟩ = { vs.get ⟨i, h1⟩ with image := (vs'.get ⟨i, h2⟩).image }) := by
  obtain ⟨pt, pim, pva, pof⟩ := p
  cases pva with
  | none =>
    have h2 : Except.ok (P0Product.mk pt pim none pof) = Except.ok q := h
    injection h2 with h2
    subst h2
    exact ⟨rfl, rfl, rfl, fun _ => rfl, fun vs hvs => nomatch hvs⟩
  | some vs =>
    have h2 : (match mapE (p0ResolveVariant (p0BuildMap pim) pim) vs with
        | Except.error e => (Except.error e : Except Unit P0Product)
        | Except.ok vs' => Except.ok (P0Product.mk pt pim (some vs') pof)) = Except.ok q := h
    cases hm : mapE (p0ResolveVariant (p0BuildMap pim) pim) vs with
    | error e => rw [hm] at h2; exact absurd h2 (by simp)
    | ok vs' =>
      rw [hm] at h2
      injection h2 with h2
      subst h2
      refine ⟨rfl, rfl, rfl, ?_, ?_⟩
      · intro hc
        exact absurd hc (by simp)
      intro vs0 hvs0
      injection hvs0 with hvs0
      subst hvs0
      refine ⟨vs', rfl, mapE_ok_length hm, ?_⟩
      intro i h1 h2x
      exact p0Resolve_frame (mapE_ok_get hm i h1 h2x)

/-- Witness for C9 at a concrete product whose variant picks up an image:
the images list is returned unchanged. -/
theorem c9_frame_processVariantImages_witness : c9wq.images = c9wp.images :=
  (c9_frame_processVariantImages c9wp c9wq rfl).1

end CrawlTool
